import Mathlib

/-!
Shallow embedding of the sviet BVH builder/flattener (src/utils/bvh.rs) and
the progressive-accumulation controller (src/scene/mod.rs, RenderParam).

Coordinates are `f32` in the source.  The model uses exact extended rationals:
a rational (`F.fin q`) or one of the two IEEE infinities (`F.negInf`,
`F.posInf`), which the code produces through `Aabb::empty()`.  NaN is not
modelled; all claims below quantify over NaN-free data.  `u32` fields are
modelled as `Nat`, with an explicit `% 2 ^ 32` at the one cast
(`obj_idx as u32`) that can truncate primitive data; array-length casts
(`nodes.len() as u32`) are assumed non-truncating, as they are for any BVH
that fits in GPU memory.
-/

namespace Sviet

/-- Extended rational standing for an `f32` value: finite, `+inf` or `-inf`
(no NaN). -/
inductive F where
  | negInf : F
  | fin : ℚ → F
  | posInf : F
deriving DecidableEq, Repr

namespace F

/-- Strict order test, as `f32`'s `<` behaves on non-NaN values. -/
def ltb : F → F → Bool
  | negInf, negInf => false
  | negInf, _ => true
  | fin _, negInf => false
  | fin a, fin b => decide (a < b)
  | fin _, posInf => true
  | posInf, _ => false

/-- Non-strict order test, as `f32`'s `<=` behaves on non-NaN values. -/
def leb : F → F → Bool
  | negInf, _ => true
  | fin _, negInf => false
  | fin a, fin b => decide (a ≤ b)
  | fin _, posInf => true
  | posInf, posInf => true
  | posInf, _ => false

/-- Componentwise minimum as computed by `glm::min2` on non-NaN floats. -/
def fmin : F → F → F
  | negInf, _ => negInf
  | _, negInf => negInf
  | posInf, y => y
  | x, posInf => x
  | fin a, fin b => fin (min a b)

/-- Componentwise maximum as computed by `glm::max2` on non-NaN floats. -/
def fmax : F → F → F
  | posInf, _ => posInf
  | _, posInf => posInf
  | negInf, y => y
  | x, negInf => x
  | fin a, fin b => fin (max a b)

/-- Addition on non-NaN floats.  The case `posInf + negInf` (NaN in IEEE) is
never produced by the code paths modelled here; it is mapped to `fin 0`. -/
def add : F → F → F
  | fin a, fin b => fin (a + b)
  | posInf, negInf => fin 0
  | negInf, posInf => fin 0
  | posInf, _ => posInf
  | _, posInf => posInf
  | negInf, _ => negInf
  | _, negInf => negInf

/-- Subtraction on non-NaN floats.  The cases `posInf - posInf` and
`negInf - negInf` (NaN in IEEE) are unreachable in the modelled code paths
(the builder only subtracts corners of a non-empty bound); they are mapped to
`fin 0`. -/
def sub : F → F → F
  | fin a, fin b => fin (a - b)
  | posInf, posInf => fin 0
  | negInf, negInf => fin 0
  | posInf, _ => posInf
  | fin _, posInf => negInf
  | negInf, _ => negInf
  | fin _, negInf => posInf

/-- Multiplication by the constant `0.5`. -/
def half : F → F
  | fin a => fin (a / 2)
  | posInf => posInf
  | negInf => negInf

/-- The value is finite (not an infinity). -/
def isFin : F → Bool
  | fin _ => true
  | _ => false

end F

/-- Three-component vector of modelled floats (`glm::Vec3`). -/
structure Vec3 where
  x : F
  y : F
  z : F
deriving DecidableEq, Repr

namespace Vec3

/-- Componentwise `glm::min2`. -/
def min2 (a b : Vec3) : Vec3 := ⟨F.fmin a.x b.x, F.fmin a.y b.y, F.fmin a.z b.z⟩

/-- Componentwise `glm::max2`. -/
def max2 (a b : Vec3) : Vec3 := ⟨F.fmax a.x b.x, F.fmax a.y b.y, F.fmax a.z b.z⟩

/-- Componentwise vector addition. -/
def add (a b : Vec3) : Vec3 := ⟨F.add a.x b.x, F.add a.y b.y, F.add a.z b.z⟩

/-- Componentwise vector subtraction (`bounds.max - bounds.min`). -/
def sub (a b : Vec3) : Vec3 := ⟨F.sub a.x b.x, F.sub a.y b.y, F.sub a.z b.z⟩

/-- Scaling by `0.5` (`v * 0.5`). -/
def half (a : Vec3) : Vec3 := ⟨F.half a.x, F.half a.y, F.half a.z⟩

/-- Indexing `v[axis]` as glm does for axis 0, 1, 2. -/
def comp (v : Vec3) : Nat → F
  | 0 => v.x
  | 1 => v.y
  | _ => v.z

/-- The constant vector with all components equal (`Vec3::repeat`). -/
def repeatF (v : F) : Vec3 := ⟨v, v, v⟩

/-- All three components are finite. -/
def allFin (v : Vec3) : Bool := v.x.isFin && v.y.isFin && v.z.isFin

end Vec3

/-- Axis-aligned bounding box (`struct Aabb`). -/
structure Aabb where
  min : Vec3
  max : Vec3
deriving DecidableEq, Repr

namespace Aabb

/-- The sentinel empty box: `min = +inf`, `max = -inf` componentwise
(`Aabb::empty`). -/
def empty : Aabb := ⟨Vec3.repeatF F.posInf, Vec3.repeatF F.negInf⟩

/-- Extending the box to cover a point (`Aabb::grow`). -/
def grow (b : Aabb) (point : Vec3) : Aabb :=
  ⟨Vec3.min2 b.min point, Vec3.max2 b.max point⟩

/-- Extending the box to cover another box (`Aabb::grow_aabb`). -/
def grow_aabb (b other : Aabb) : Aabb :=
  ⟨Vec3.min2 b.min other.min, Vec3.max2 b.max other.max⟩

/-- Centroid `(min + max) * 0.5` (`Aabb::center`). -/
def center (b : Aabb) : Vec3 := Vec3.half (Vec3.add b.min b.max)

end Aabb

/-- Primitive kind tag (`enum ObjectType`). -/
inductive ObjectType where
  | Sphere : ObjectType
  | Mesh : ObjectType
deriving DecidableEq, Repr

/-- Tagged primitive reference `(ObjectType, usize)`. -/
abbrev PrimRef := ObjectType × Nat

/-- One builder input: a primitive reference together with its AABB
(an element of the `primitives` vector in `build_bvh_flat`). -/
abbrev Prim := PrimRef × Aabb

/-- Flat GPU node (`struct BvhNode`): `min`, `data`, `max`, `count`, with the
two `u32` fields modelled as `Nat`. -/
structure BvhNode where
  min : Vec3
  data : Nat
  max : Vec3
  count : Nat
deriving DecidableEq, Repr

instance : Inhabited BvhNode :=
  ⟨⟨Vec3.repeatF (F.fin 0), 0, Vec3.repeatF (F.fin 0), 0⟩⟩

/-- Build-tree node (`struct BvhBuildNode`): bounds corners, optional owned
children, and the list of primitive references held at a leaf. -/
inductive BvhBuildNode where
  | mk : Vec3 → Vec3 → Option BvhBuildNode → Option BvhBuildNode →
      List PrimRef → BvhBuildNode

namespace BvhBuildNode

/-- The `min` field. -/
def nmin : BvhBuildNode → Vec3
  | mk m _ _ _ _ => m

/-- The `max` field. -/
def nmax : BvhBuildNode → Vec3
  | mk _ m _ _ _ => m

/-- The `left` field. -/
def left : BvhBuildNode → Option BvhBuildNode
  | mk _ _ l _ _ => l

/-- The `right` field. -/
def right : BvhBuildNode → Option BvhBuildNode
  | mk _ _ _ r _ => r

/-- The `primitive_indices` field. -/
def primitive_indices : BvhBuildNode → List PrimRef
  | mk _ _ _ _ ps => ps

end BvhBuildNode

/-- The split-axis choice of `build_recursive` (lines 106-113 of bvh.rs):
axis 0 when the x extent strictly exceeds both others, otherwise axis 1 when
the y extent strictly exceeds the z extent, otherwise axis 2. -/
def chooseAxis (extent : Vec3) : Nat :=
  if F.ltb extent.y extent.x && F.ltb extent.z extent.x then 0
  else if F.ltb extent.z extent.y then 1
  else 2

/-- The node bounds computed at the top of `build_recursive`: the fold of
`grow_aabb` over all input primitive boxes, starting from `Aabb::empty()`. -/
def boundsOf (primitives : List Prim) : Aabb :=
  primitives.foldl (fun b p => b.grow_aabb p.2) Aabb.empty

/-- The centroid-comparison key used by the sort in `build_recursive`:
`a.center()[axis].partial_cmp(&b.center()[axis]).unwrap_or(Equal)` induces,
on non-NaN values, the total order `leb` on centroid components; Rust's
stable `sort_by` with that comparator coincides with `mergeSort` by this
`le` test. -/
def centroidLe (axis : Nat) (a b : Prim) : Bool :=
  F.leb (Vec3.comp a.2.center axis) (Vec3.comp b.2.center axis)

/-- The recursive object-median builder (`build_recursive`). -/
def build_recursive (primitives : List Prim) : BvhBuildNode :=
  let bounds := boundsOf primitives
  if h : primitives.length ≤ 1 then
    BvhBuildNode.mk bounds.min bounds.max none none (primitives.map Prod.fst)
  else
    let extent := Vec3.sub bounds.max bounds.min
    let axis := chooseAxis extent
    let sorted := primitives.mergeSort (centroidLe axis)
    let split_idx := sorted.length / 2
    BvhBuildNode.mk bounds.min bounds.max
      (some (build_recursive (sorted.take split_idx)))
      (some (build_recursive (sorted.drop split_idx)))
      []
termination_by primitives.length
decreasing_by
  · simp only [List.length_take, List.length_mergeSort]
    omega
  · simp only [List.length_drop, List.length_mergeSort]
    omega

/-- The per-leaf `data` word computed by `flatten_tree` (lines 162-167):
a kind bit in the MSB or-ed with the primitive index cast to `u32`. -/
def leafData (obj_type : ObjectType) (obj_idx : Nat) : Nat :=
  let type_bit : Nat :=
    match obj_type with
    | ObjectType.Sphere => 0
    | ObjectType.Mesh => 1
  (type_bit <<< 31) ||| (obj_idx % 2 ^ 32)

/-- The pre-order flattener (`flatten_tree`): returns the grown node array
and the slot index reserved for this node.  The Rust body reserves the slot
by pushing a dummy node, handles the leaf case when both children are
absent, and otherwise flattens an optional left child then an optional right
child; the four child configurations are spelled out here. -/
def flatten_tree : BvhBuildNode → List BvhNode → List BvhNode × Nat
  | BvhBuildNode.mk nmin nmax none none prims, nodes0 =>
    let index := nodes0.length
    let nodes1 := nodes0 ++ [default]
    -- Leaf: take the first primitive reference, or a (Sphere, 0) dummy.
    let p := prims.headD (ObjectType.Sphere, 0)
    (nodes1.set index ⟨nmin, leafData p.1 p.2, nmax, prims.length⟩, index)
  | BvhBuildNode.mk nmin nmax (some lc) (some rc) _, nodes0 =>
    let index := nodes0.length
    let nodes1 := nodes0 ++ [default]
    let nodes2 := (flatten_tree lc nodes1).1
    let res := flatten_tree rc nodes2
    (res.1.set index ⟨nmin, res.2, nmax, 0⟩, index)
  | BvhBuildNode.mk nmin nmax (some lc) none _, nodes0 =>
    let index := nodes0.length
    let nodes1 := nodes0 ++ [default]
    let nodes2 := (flatten_tree lc nodes1).1
    (nodes2.set index ⟨nmin, 0, nmax, 0⟩, index)
  | BvhBuildNode.mk nmin nmax none (some rc) _, nodes0 =>
    let index := nodes0.length
    let nodes1 := nodes0 ++ [default]
    let res := flatten_tree rc nodes1
    (res.1.set index ⟨nmin, res.2, nmax, 0⟩, index)

/-- The top-level entry (`build_bvh_flat`), over the enumerated sphere and
mesh bounding boxes. -/
def build_bvh_flat (sphereBoxes meshBoxes : List Aabb) : List BvhNode :=
  let primitives : List Prim :=
    (sphereBoxes.enum.map fun p => ((ObjectType.Sphere, p.1), p.2)) ++
      (meshBoxes.enum.map fun p => ((ObjectType.Mesh, p.1), p.2))
  let root := build_recursive primitives
  (flatten_tree root []).1

/-- Progressive accumulation state (`struct RenderParam`), `u32` fields as
`Nat`. -/
structure RenderParam where
  samples_max_per_pixel : Nat
  samples_per_pixel : Nat
  total_samples : Nat
  clear_samples : Nat
  max_depth : Nat
deriving DecidableEq, Repr

/-- The per-frame controller step (`RenderParam::update`); the wrapping
`u32` addition is modelled with an explicit `% 2 ^ 32`. -/
def RenderParam.update (s : RenderParam) : RenderParam :=
  if s.total_samples = 0 then
    { s with
      total_samples := (s.total_samples + s.samples_per_pixel) % 2 ^ 32,
      clear_samples := 1 }
  else if s.total_samples ≤ s.samples_max_per_pixel then
    { s with
      total_samples := (s.total_samples + s.samples_per_pixel) % 2 ^ 32,
      clear_samples := 0 }
  else
    { s with samples_per_pixel := 0, clear_samples := 0 }

/-! Basic order facts about the modelled float values. -/

namespace F

theorem leb_refl (a : F) : leb a a = true := by
  cases a <;> simp [leb]

theorem leb_total (a b : F) : leb a b = true ∨ leb b a = true := by
  cases a <;> cases b <;> simp [leb] <;> exact le_total _ _

theorem leb_trans {a b c : F} (hab : leb a b = true) (hbc : leb b c = true) :
    leb a c = true := by
  cases a <;> cases b <;> cases c <;> simp_all [leb]
  exact le_trans hab hbc

theorem ltb_eq_not_leb (a b : F) : ltb a b = !leb b a := by
  cases a <;> cases b <;> simp [ltb, leb, ← not_le]

theorem fmin_posInf (x : F) : fmin posInf x = x := by
  cases x <;> rfl

theorem fmax_negInf (x : F) : fmax negInf x = x := by
  cases x <;> rfl

end F

namespace Vec3

theorem min2_posInf (v : Vec3) : min2 (repeatF F.posInf) v = v := by
  cases v
  simp [min2, repeatF, F.fmin_posInf]

theorem max2_negInf (v : Vec3) : max2 (repeatF F.negInf) v = v := by
  cases v
  simp [max2, repeatF, F.fmax_negInf]

end Vec3

/-! Split-axis analysis.  The extent the builder examines, and two
specification-side axis rules: the one stated by the spec (ties broken in
order X, then Y, then Z) and the amended one the code implements (ties
broken in order Z, then Y, then X). -/

/-- The extent vector examined by `build_recursive`:
`bounds.max - bounds.min` for the bounds of the whole input set. -/
def extentOf (primitives : List Prim) : Vec3 :=
  Vec3.sub (boundsOf primitives).max (boundsOf primitives).min

/-- Axis `a` has the (weakly) largest extent. -/
def maximalB (e : Vec3) (a : Nat) : Bool :=
  F.leb (e.comp 0) (e.comp a) && F.leb (e.comp 1) (e.comp a) &&
    F.leb (e.comp 2) (e.comp a)

/-- Modelled from the spec claim: the axis of largest extent, ties broken in
order X, then Y, then Z (X wins ties with Y; Y wins ties with Z). -/
def specAxisTiesXYZ (e : Vec3) : Nat :=
  if maximalB e 0 then 0 else if maximalB e 1 then 1 else 2

/-- The amended rule: the axis of largest extent, ties broken in order Z,
then Y, then X (X is chosen only when strictly largest; on an X-Y tie Y
wins; on a Y-Z tie Z wins). -/
def specAxisTiesZYX (e : Vec3) : Nat :=
  if maximalB e 2 then 2 else if maximalB e 1 then 1 else 0

theorem chooseAxis_eq_specZYX (e : Vec3) :
    chooseAxis e = specAxisTiesZYX e := by
  obtain ⟨ex, ey, ez⟩ := e
  simp only [chooseAxis, specAxisTiesZYX, maximalB, Vec3.comp,
    F.ltb_eq_not_leb, F.leb_refl, Bool.and_true]
  rcases hA : F.leb ex ey <;> rcases hB : F.leb ex ez <;>
    rcases hC : F.leb ey ez <;> rcases hD : F.leb ez ey <;>
    first
      | (simp_all; done)
      | (have hac := F.leb_trans hA hC; simp_all; done)
      | (have hbd := F.leb_trans hB hD; simp_all; done)
      | (rcases F.leb_total ey ez with h | h <;> simp_all)

/-- The concrete two-primitive input refuting the spec tie-break: two point
boxes at the origin and at `(1, 1, 0)`, so the root extent is `(1, 1, 0)`
with the X and Y extents tied and maximal. -/
def tieBreakPrims : List Prim :=
  [((ObjectType.Sphere, 0),
     ⟨⟨F.fin 0, F.fin 0, F.fin 0⟩, ⟨F.fin 0, F.fin 0, F.fin 0⟩⟩),
   ((ObjectType.Sphere, 1),
     ⟨⟨F.fin 1, F.fin 1, F.fin 0⟩, ⟨F.fin 1, F.fin 1, F.fin 0⟩⟩)]

/-- C1 counterexample: on `tieBreakPrims` (two primitives, X and Y extents
tied and maximal) the builder picks axis Y (1), while the claimed tie-break
in order X, then Y, then Z picks axis X (0). -/
theorem extentOf_tieBreakPrims :
    extentOf tieBreakPrims = ⟨F.fin 1, F.fin 1, F.fin 0⟩ := by
  simp only [extentOf, boundsOf, tieBreakPrims, List.foldl_cons,
    List.foldl_nil, Aabb.empty, Aabb.grow_aabb, Vec3.repeatF, Vec3.min2,
    Vec3.max2, Vec3.sub, F.fmin, F.fmax, F.sub]
  norm_num

theorem C1_tie_break_counterexample :
    2 ≤ tieBreakPrims.length ∧
      chooseAxis (extentOf tieBreakPrims) = 1 ∧
      specAxisTiesXYZ (extentOf tieBreakPrims) = 0 := by
  refine ⟨by decide, ?_, ?_⟩ <;>
    simp [extentOf_tieBreakPrims, chooseAxis, specAxisTiesXYZ, maximalB,
      Vec3.comp, F.ltb, F.leb]

/-- C1 (amended): for every primitive set with at least two elements, the
split axis chosen by the builder is the one of largest extent with ties
broken in order Z, then Y, then X: X is chosen only when its extent strictly
exceeds both others, and on an X-Y tie the builder picks Y, on a Y-Z tie it
picks Z. -/
theorem C1_split_axis_amended (primitives : List Prim)
    (h : 2 ≤ primitives.length) :
    chooseAxis (extentOf primitives) = specAxisTiesZYX (extentOf primitives) :=
  chooseAxis_eq_specZYX _

theorem C1_split_axis_amended_witness :
    2 ≤ tieBreakPrims.length ∧
      chooseAxis (extentOf tieBreakPrims) =
        specAxisTiesZYX (extentOf tieBreakPrims) :=
  ⟨by decide, C1_split_axis_amended tieBreakPrims (by decide)⟩

/-! Root bounds (C2) and the union identity (C8). -/

/-- Componentwise minimum of the `min` corners of a non-empty primitive set,
seeded at the head: the union lower corner in the words of the spec. -/
def specUnionMin (p : Prim) (ps : List Prim) : Vec3 :=
  ps.foldl (fun v q => Vec3.min2 v q.2.min) p.2.min

/-- Componentwise maximum of the `max` corners of a non-empty primitive set,
seeded at the head: the union upper corner in the words of the spec. -/
def specUnionMax (p : Prim) (ps : List Prim) : Vec3 :=
  ps.foldl (fun v q => Vec3.max2 v q.2.max) p.2.max

theorem foldl_grow_aabb (ps : List Prim) (m M : Vec3) :
    ps.foldl (fun b p => b.grow_aabb p.2) (Aabb.mk m M) =
      Aabb.mk (ps.foldl (fun v q => Vec3.min2 v q.2.min) m)
        (ps.foldl (fun v q => Vec3.max2 v q.2.max) M) := by
  induction ps generalizing m M with
  | nil => rfl
  | cons q qs ih => exact ih _ _

theorem boundsOf_cons (p : Prim) (ps : List Prim) :
    boundsOf (p :: ps) = ⟨specUnionMin p ps, specUnionMax p ps⟩ := by
  have h0 : Aabb.empty.grow_aabb p.2 = ⟨p.2.min, p.2.max⟩ := by
    simp [Aabb.empty, Aabb.grow_aabb, Vec3.min2_posInf, Vec3.max2_negInf]
  simp only [boundsOf, List.foldl_cons, h0]
  exact foldl_grow_aabb ps _ _

theorem build_recursive_bounds (primitives : List Prim) :
    (build_recursive primitives).nmin = (boundsOf primitives).min ∧
      (build_recursive primitives).nmax = (boundsOf primitives).max := by
  rw [build_recursive]
  split <;> exact ⟨rfl, rfl⟩

/-- C2: for every non-empty primitive set, the AABB stored at the root of
the build tree is exactly the union (componentwise min of mins, max of
maxes) of every input primitive's AABB. -/
theorem C2_root_aabb_is_union (p : Prim) (ps : List Prim) :
    (build_recursive (p :: ps)).nmin = specUnionMin p ps ∧
      (build_recursive (p :: ps)).nmax = specUnionMax p ps := by
  have h := build_recursive_bounds (p :: ps)
  rw [boundsOf_cons] at h
  exact h

/-- C8: the empty AABB is the identity of the union: growing
`Aabb::empty()` by any AABB with finite corners yields exactly that AABB. -/
theorem C8_empty_is_union_identity (b : Aabb)
    (hmin : b.min.allFin = true) (hmax : b.max.allFin = true) :
    Aabb.empty.grow_aabb b = b := by
  obtain ⟨bmin, bmax⟩ := b
  simp [Aabb.empty, Aabb.grow_aabb, Vec3.min2_posInf, Vec3.max2_negInf]

theorem C8_empty_is_union_identity_witness :
    (Aabb.mk ⟨F.fin (-1), F.fin 0, F.fin 2⟩
        ⟨F.fin 3, F.fin 4, F.fin 5⟩).min.allFin = true ∧
      (Aabb.mk ⟨F.fin (-1), F.fin 0, F.fin 2⟩
        ⟨F.fin 3, F.fin 4, F.fin 5⟩).max.allFin = true ∧
      Aabb.empty.grow_aabb
          (Aabb.mk ⟨F.fin (-1), F.fin 0, F.fin 2⟩ ⟨F.fin 3, F.fin 4, F.fin 5⟩) =
        Aabb.mk ⟨F.fin (-1), F.fin 0, F.fin 2⟩ ⟨F.fin 3, F.fin 4, F.fin 5⟩ :=
  ⟨by decide, by decide,
    C8_empty_is_union_identity _ (by decide) (by decide)⟩

/-! Structure of the build tree and of the flattened array (C3, C4, C5,
C9). -/

/-- Number of leaves (childless nodes) of a build tree. -/
def BvhBuildNode.leaves : BvhBuildNode → Nat
  | BvhBuildNode.mk _ _ none none _ => 1
  | BvhBuildNode.mk _ _ (some l) (some r) _ => l.leaves + r.leaves
  | BvhBuildNode.mk _ _ (some l) none _ => l.leaves
  | BvhBuildNode.mk _ _ none (some r) _ => r.leaves

/-- Number of array slots `flatten_tree` appends for a tree: one per
visited node. -/
def flatCount : BvhBuildNode → Nat
  | BvhBuildNode.mk _ _ none none _ => 1
  | BvhBuildNode.mk _ _ (some l) (some r) _ => 1 + flatCount l + flatCount r
  | BvhBuildNode.mk _ _ (some l) none _ => 1 + flatCount l
  | BvhBuildNode.mk _ _ none (some r) _ => 1 + flatCount r

/-- Every node of the tree satisfies the predicate. -/
def allNodesB (p : BvhBuildNode → Bool) : BvhBuildNode → Bool
  | n@(BvhBuildNode.mk _ _ none none _) => p n
  | n@(BvhBuildNode.mk _ _ (some l) (some r) _) =>
      p n && allNodesB p l && allNodesB p r
  | n@(BvhBuildNode.mk _ _ (some l) none _) => p n && allNodesB p l
  | n@(BvhBuildNode.mk _ _ none (some r) _) => p n && allNodesB p r

/-- The node has both children or neither. -/
def isFullB : BvhBuildNode → Bool
  | BvhBuildNode.mk _ _ none none _ => true
  | BvhBuildNode.mk _ _ (some _) (some _) _ => true
  | _ => false

/-- The per-node builder invariant stated by the spec: a childless node
holds a non-empty reference list, a node with both children holds an empty
one (and one-child nodes do not occur). -/
def goodNodeB : BvhBuildNode → Bool
  | BvhBuildNode.mk _ _ none none ps => decide (ps ≠ [])
  | BvhBuildNode.mk _ _ (some _) (some _) ps => decide (ps = [])
  | _ => false

theorem flatCount_pos (n : BvhBuildNode) : 1 ≤ flatCount n := by
  cases n with
  | mk mn mx l r ps => cases l <;> cases r <;> simp [flatCount] <;> omega

theorem leaves_pos : ∀ n : BvhBuildNode, 1 ≤ n.leaves
  | BvhBuildNode.mk _ _ none none _ => by simp [BvhBuildNode.leaves]
  | BvhBuildNode.mk _ _ (some l) (some r) _ => by
      have := leaves_pos l
      simp [BvhBuildNode.leaves]
      omega
  | BvhBuildNode.mk _ _ (some l) none _ => leaves_pos l
  | BvhBuildNode.mk _ _ none (some r) _ => leaves_pos r

theorem flatten_tree_idx (n : BvhBuildNode) (ns : List BvhNode) :
    (flatten_tree n ns).2 = ns.length := by
  cases n with
  | mk mn mx l r ps => cases l <;> cases r <;> simp [flatten_tree]

theorem flatten_tree_length : ∀ (n : BvhBuildNode) (ns : List BvhNode),
    (flatten_tree n ns).1.length = ns.length + flatCount n
  | BvhBuildNode.mk mn mx none none ps, ns => by
      simp [flatten_tree, flatCount]
  | BvhBuildNode.mk mn mx (some l) (some r) ps, ns => by
      have hl := flatten_tree_length l (ns ++ [default])
      have hr := flatten_tree_length r (flatten_tree l (ns ++ [default])).1
      simp [flatten_tree, flatCount, hr, hl]
      omega
  | BvhBuildNode.mk mn mx (some l) none ps, ns => by
      have hl := flatten_tree_length l (ns ++ [default])
      simp [flatten_tree, flatCount, hl]
      omega
  | BvhBuildNode.mk mn mx none (some r) ps, ns => by
      have hr := flatten_tree_length r (ns ++ [default])
      simp [flatten_tree, flatCount, hr]
      omega

theorem flatten_tree_preserves : ∀ (n : BvhBuildNode) (ns : List BvhNode)
    (i : Nat), i < ns.length → (flatten_tree n ns).1[i]? = ns[i]?
  | BvhBuildNode.mk mn mx none none ps, ns, i, h => by
      simp only [flatten_tree]
      rw [List.getElem?_set_ne (by omega), List.getElem?_append]
      simp [h]
  | BvhBuildNode.mk mn mx (some l) (some r) ps, ns, i, h => by
      have hlen := flatten_tree_length l (ns ++ [default])
      have hl := flatten_tree_preserves l (ns ++ [default]) i
        (by simp; omega)
      have hr := flatten_tree_preserves r (flatten_tree l (ns ++ [default])).1 i
        (by rw [hlen]; simp; omega)
      simp only [flatten_tree]
      rw [List.getElem?_set_ne (by omega), hr, hl, List.getElem?_append]
      simp [h]
  | BvhBuildNode.mk mn mx (some l) none ps, ns, i, h => by
      have hl := flatten_tree_preserves l (ns ++ [default]) i
        (by simp; omega)
      simp only [flatten_tree]
      rw [List.getElem?_set_ne (by omega), hl, List.getElem?_append]
      simp [h]
  | BvhBuildNode.mk mn mx none (some r) ps, ns, i, h => by
      have hr := flatten_tree_preserves r (ns ++ [default]) i
        (by simp; omega)
      simp only [flatten_tree]
      rw [List.getElem?_set_ne (by omega), hr, List.getElem?_append]
      simp [h]

theorem flatten_tree_inv : ∀ (n : BvhBuildNode) (ns : List BvhNode),
    allNodesB goodNodeB n = true →
    ∀ j v, ns.length ≤ j → (flatten_tree n ns).1[j]? = some v →
      v.count = 0 → j + 1 < v.data ∧ v.data < (flatten_tree n ns).1.length
  | BvhBuildNode.mk mn mx none none ps, ns => by
      intro hall j v hj hget hcount
      have hps : ps ≠ [] := by simpa [allNodesB, goodNodeB] using hall
      simp only [flatten_tree] at hget
      obtain ⟨hlt, -⟩ := List.getElem?_eq_some.mp hget
      simp only [List.length_set, List.length_append, List.length_cons,
        List.length_nil] at hlt
      have hj0 : j = ns.length := by omega
      rw [hj0, List.getElem?_set_eq (by simp)] at hget
      have hv := Option.some.inj hget
      rw [← hv] at hcount
      simp only at hcount
      exact absurd (List.length_eq_zero.mp hcount) hps
  | BvhBuildNode.mk mn mx (some l) (some r) ps, ns => by
      intro hall j v hj hget hcount
      obtain ⟨⟨hgood, halll⟩, hallr⟩ :
          (goodNodeB (BvhBuildNode.mk mn mx (some l) (some r) ps) = true ∧
            allNodesB goodNodeB l = true) ∧
            allNodesB goodNodeB r = true := by
        simpa [allNodesB, Bool.and_eq_true] using hall
      have hfl := flatten_tree_length l (ns ++ [default])
      have hfr := flatten_tree_length r (flatten_tree l (ns ++ [default])).1
      have hpl := flatCount_pos l
      have hpr := flatCount_pos r
      have hidx := flatten_tree_idx r (flatten_tree l (ns ++ [default])).1
      simp only [List.length_append, List.length_cons, List.length_nil] at hfl
      simp only [flatten_tree] at hget ⊢
      rcases Nat.lt_trichotomy j ns.length with hlt | heq | hgt
      · omega
      · rw [heq, List.getElem?_set_eq (by rw [hfr, hfl]; omega)] at hget
        have hv := Option.some.inj hget
        rw [← hv]
        simp only [List.length_set, hfr, hfl, hidx]
        omega
      · rw [List.getElem?_set_ne (by omega)] at hget
        by_cases hjA : j < (flatten_tree l (ns ++ [default])).1.length
        · rw [flatten_tree_preserves r _ j hjA] at hget
          have ih := flatten_tree_inv l (ns ++ [default]) halll j v
            (by simp; omega) hget hcount
          refine ⟨ih.1, ?_⟩
          simp only [List.length_set]
          omega
        · have ih := flatten_tree_inv r (flatten_tree l (ns ++ [default])).1
            hallr j v (by omega) hget hcount
          refine ⟨ih.1, ?_⟩
          simp only [List.length_set]
          exact ih.2
  | BvhBuildNode.mk mn mx (some l) none ps, ns => by
      intro hall
      simp [allNodesB, goodNodeB] at hall
  | BvhBuildNode.mk mn mx none (some r) ps, ns => by
      intro hall
      simp [allNodesB, goodNodeB] at hall

theorem build_isFull_aux : ∀ (fuel : Nat) (primitives : List Prim),
    primitives.length ≤ fuel →
    allNodesB isFullB (build_recursive primitives) = true := by
  intro fuel
  induction fuel with
  | zero =>
    intro primitives h
    have : primitives = [] := List.length_eq_zero.mp (by omega)
    subst this
    rw [build_recursive]
    simp [allNodesB, isFullB]
  | succ fuel ih =>
    intro primitives hlen
    rw [build_recursive]
    split
    · simp [allNodesB, isFullB]
    · rename_i hgt
      simp only [allNodesB, isFullB, Bool.and_eq_true, true_and]
      constructor
      · apply ih
        simp only [List.length_take, List.length_mergeSort]
        omega
      · apply ih
        simp only [List.length_drop, List.length_mergeSort]
        omega

theorem build_isFull (primitives : List Prim) :
    allNodesB isFullB (build_recursive primitives) = true :=
  build_isFull_aux primitives.length primitives (le_refl _)

theorem build_good_aux : ∀ (fuel : Nat) (primitives : List Prim),
    primitives.length ≤ fuel → primitives ≠ [] →
    allNodesB goodNodeB (build_recursive primitives) = true := by
  intro fuel
  induction fuel with
  | zero =>
    intro primitives h hne
    exact absurd (List.length_eq_zero.mp (by omega)) hne
  | succ fuel ih =>
    intro primitives hlen hne
    rw [build_recursive]
    split
    · simp only [allNodesB, goodNodeB, ne_eq, decide_eq_true_eq]
      simpa using hne
    · rename_i hgt
      simp only [allNodesB, goodNodeB, Bool.and_eq_true, decide_eq_true_eq]
      refine ⟨⟨trivial, ih _ ?_ ?_⟩, ih _ ?_ ?_⟩
      · simp only [List.length_take, List.length_mergeSort]
        omega
      · rw [← List.length_pos]
        simp only [List.length_take, List.length_mergeSort]
        omega
      · simp only [List.length_drop, List.length_mergeSort]
        omega
      · rw [← List.length_pos]
        simp only [List.length_drop, List.length_mergeSort]
        omega

theorem build_good (primitives : List Prim) (hne : primitives ≠ []) :
    allNodesB goodNodeB (build_recursive primitives) = true :=
  build_good_aux primitives.length primitives (le_refl _) hne

theorem flatCount_eq_of_full : ∀ n : BvhBuildNode,
    allNodesB isFullB n = true → flatCount n = 2 * n.leaves - 1
  | BvhBuildNode.mk mn mx none none ps, _ => by
      simp [flatCount, BvhBuildNode.leaves]
  | BvhBuildNode.mk mn mx (some l) (some r) ps, h => by
      obtain ⟨⟨-, hl⟩, hr⟩ :
          (isFullB (BvhBuildNode.mk mn mx (some l) (some r) ps) = true ∧
            allNodesB isFullB l = true) ∧ allNodesB isFullB r = true := by
        simpa [allNodesB, Bool.and_eq_true] using h
      have ihl := flatCount_eq_of_full l hl
      have ihr := flatCount_eq_of_full r hr
      have pl := leaves_pos l
      have pr := leaves_pos r
      simp only [flatCount, BvhBuildNode.leaves, ihl, ihr]
      omega
  | BvhBuildNode.mk mn mx (some l) none ps, h => by
      simp [allNodesB, isFullB] at h
  | BvhBuildNode.mk mn mx none (some r) ps, h => by
      simp [allNodesB, isFullB] at h

/-- The tree built from the empty primitive set: a childless node with the
sentinel bounds and no primitive references. -/
theorem build_nil : build_recursive [] =
    BvhBuildNode.mk (Vec3.repeatF F.posInf) (Vec3.repeatF F.negInf)
      none none [] := by
  rw [build_recursive]
  simp [boundsOf, Aabb.empty]

/-- C3: for every input primitive set, the flattened array has length
exactly `2k - 1` where `k` is the number of leaves of the build tree, and
the flattener returns index 0 for the root call. -/
theorem C3_flat_length_and_root_index (primitives : List Prim) :
    (flatten_tree (build_recursive primitives) []).1.length =
        2 * (build_recursive primitives).leaves - 1 ∧
      (flatten_tree (build_recursive primitives) []).2 = 0 := by
  refine ⟨?_, by simpa using flatten_tree_idx (build_recursive primitives) []⟩
  have h1 := flatten_tree_length (build_recursive primitives) []
  have h2 := flatCount_eq_of_full (build_recursive primitives)
    (build_isFull primitives)
  simpa [h2] using h1

/-- Decidable check of the claimed internal-node layout over a flat array:
every slot with `count = 0` stores a right-child index strictly greater
than its own index plus one and within the array. -/
def internalOkB (A : List BvhNode) : Bool :=
  (List.range A.length).all fun i =>
    A[i]!.count != 0 ||
      (decide (i + 1 < A[i]!.data) && decide (A[i]!.data < A.length))

/-- C4 counterexample: for the empty primitive set the flattened array is a
single node with `count = 0` and `data = 0`, an "internal" node whose
stored right-child index is not greater than its index plus one. -/
theorem C4_internal_layout_counterexample :
    ¬ (∀ primitives : List Prim,
        internalOkB ((flatten_tree (build_recursive primitives) []).1) =
          true) := by
  intro h
  have h0 := h []
  rw [build_nil] at h0
  simp only [flatten_tree, List.nil_append, List.length_nil] at h0
  exact absurd h0 (by decide)

/-- C4 (amended): in every flattened array produced from a build tree of a
non-empty primitive set, every internal node (`count = 0`) at index `i` has
`data > i + 1` with `data` inside the array, and the left child of an
internal node flattened at slot `i` is flattened at slot `i + 1`. -/
theorem C4_internal_layout_amended :
    (∀ (p : Prim) (ps : List Prim),
        internalOkB ((flatten_tree (build_recursive (p :: ps)) []).1) =
          true) ∧
      (∀ (mn mx : Vec3) (lc rc : BvhBuildNode) (prims : List PrimRef)
          (ns : List BvhNode),
        (flatten_tree lc (ns ++ [default])).2 =
          (flatten_tree
              (BvhBuildNode.mk mn mx (some lc) (some rc) prims) ns).2 + 1) := by
  constructor
  · intro p ps
    rw [internalOkB, List.all_eq_true]
    intro i hi
    have hi' : i < ((flatten_tree (build_recursive (p :: ps)) []).1).length :=
      List.mem_range.mp hi
    by_cases hc : ((flatten_tree (build_recursive (p :: ps)) []).1)[i]!.count = 0
    · have hbang := getElem!_pos
        ((flatten_tree (build_recursive (p :: ps)) []).1) i hi'
      have hget : ((flatten_tree (build_recursive (p :: ps)) []).1)[i]? =
          some (((flatten_tree (build_recursive (p :: ps)) []).1)[i]!) := by
        rw [hbang]
        exact List.getElem?_eq_getElem hi'
      have hinv := flatten_tree_inv (build_recursive (p :: ps)) []
        (build_good _ (by simp)) i _ (by simp) hget hc
      simp [hinv.1, hinv.2]
    · simp [hc]
  · intro mn mx lc rc prims ns
    rw [flatten_tree_idx, flatten_tree_idx]
    simp

/-- C9 counterexample: for the empty input set the builder returns a
childless node whose `primitive_indices` list is empty, violating the
claimed invariant that leaves hold a non-empty reference list. -/
theorem C9_invariant_counterexample :
    ¬ (∀ primitives : List Prim,
        allNodesB goodNodeB (build_recursive primitives) = true) := by
  intro h
  have h0 := h []
  rw [build_nil] at h0
  simp [allNodesB, goodNodeB] at h0

/-- C9 (amended): for every non-empty input primitive set, every node of
the build tree is either a childless node with a non-empty
`primitive_indices` list or a node with both children and an empty list;
for the empty input the tree is a single childless node whose list is
empty. -/
theorem C9_node_invariant_amended :
    (∀ (p : Prim) (ps : List Prim),
        allNodesB goodNodeB (build_recursive (p :: ps)) = true) ∧
      (build_recursive []).left = none ∧ (build_recursive []).right = none ∧
        (build_recursive []).primitive_indices = [] := by
  refine ⟨fun p ps => build_good (p :: ps) (by simp), ?_, ?_, ?_⟩ <;>
    rw [build_nil] <;> rfl

/-- Decoding of a leaf `data` word as described by the spec: the kind is
the most significant of the 32 bits, the index the remaining 31 bits. -/
def decodeKind (data : Nat) : ObjectType :=
  if data >>> 31 = 0 then ObjectType.Sphere else ObjectType.Mesh

/-- The low 31 bits of a leaf `data` word, per the spec. -/
def decodeIndex (data : Nat) : Nat := data &&& 0x7FFFFFFF

theorem leafData_decode (k : ObjectType) (i : Nat) (h : i < 2 ^ 31) :
    decodeKind (leafData k i) = k ∧ decodeIndex (leafData k i) = i := by
  have hmod : i % 2 ^ 32 = i := Nat.mod_eq_of_lt (by omega)
  have hmask : (0x7FFFFFFF : Nat) = 2 ^ 31 - 1 := by norm_num
  cases k with
  | Sphere =>
    simp only [leafData, decodeKind, decodeIndex, hmod, Nat.zero_shiftLeft,
      Nat.zero_or, hmask]
    rw [Nat.shiftRight_eq_div_pow, Nat.and_pow_two_sub_one_eq_mod]
    have h0 : i / 2 ^ 31 = 0 := by omega
    exact ⟨by rw [if_pos h0], by omega⟩
  | Mesh =>
    have hor : (1 <<< 31 : Nat) ||| i = 2 ^ 31 + i := by
      have := Nat.mul_add_lt_is_or h 1
      simpa [Nat.shiftLeft_eq] using this.symm
    simp only [leafData, decodeKind, decodeIndex, hmod, hor, hmask]
    rw [Nat.shiftRight_eq_div_pow, Nat.and_pow_two_sub_one_eq_mod]
    constructor
    · have : (2 ^ 31 + i) / 2 ^ 31 = 1 := by omega
      simp [this]
    · omega

/-- C5: flattening a build-tree leaf whose first primitive reference is
`(k, i)` with `i < 2^31` stores at the leaf slot a `data` word from which
the spec decoding (`kind = data >> 31`, `index = data & 0x7FFFFFFF`)
recovers exactly `(k, i)`. -/
theorem C5_leaf_bitpack_roundtrip (mn mx : Vec3) (prims : List PrimRef)
    (k : ObjectType) (i : Nat) (hhead : prims.head? = some (k, i))
    (hlt : i < 2 ^ 31) (ns : List BvhNode) :
    ∃ v : BvhNode,
      ((flatten_tree (BvhBuildNode.mk mn mx none none prims) ns).1)[
          (flatten_tree (BvhBuildNode.mk mn mx none none prims) ns).2]? =
        some v ∧ decodeKind v.data = k ∧ decodeIndex v.data = i := by
  have hheadD : prims.headD (ObjectType.Sphere, 0) = (k, i) := by
    rw [List.headD_eq_head?, hhead]
    rfl
  refine ⟨⟨mn, leafData k i, mx, prims.length⟩, ?_, leafData_decode k i hlt⟩
  simp only [flatten_tree, hheadD]
  rw [List.getElem?_set_eq (by simp)]

theorem C5_leaf_bitpack_roundtrip_witness :
    ([((ObjectType.Mesh, 5) : PrimRef)].head? = some (ObjectType.Mesh, 5) ∧
        5 < 2 ^ 31) ∧
      ∃ v : BvhNode,
        ((flatten_tree
            (BvhBuildNode.mk (Vec3.repeatF (F.fin 0)) (Vec3.repeatF (F.fin 0))
              none none [(ObjectType.Mesh, 5)]) []).1)[
            (flatten_tree
              (BvhBuildNode.mk (Vec3.repeatF (F.fin 0)) (Vec3.repeatF (F.fin 0))
                none none [(ObjectType.Mesh, 5)]) []).2]? =
          some v ∧ decodeKind v.data = ObjectType.Mesh ∧ decodeIndex v.data = 5 :=
  ⟨⟨by decide, by decide⟩,
    C5_leaf_bitpack_roundtrip _ _ _ _ _ (by decide) (by decide) []⟩

/-! Progressive accumulation controller (C6, C7, C10). -/

/-- C6: from `total_samples = 0`, `samples_per_pixel = 4`,
`samples_max_per_pixel = 16` (any initial `clear_samples` and `max_depth`),
five successive updates produce `total_samples` 4, 8, 12, 16, 20 with
`clear_samples` 1, 0, 0, 0, 0, and the next update zeroes
`samples_per_pixel` with `clear_samples = 0` and `total_samples` still
20. -/
theorem C6_accumulation_trace (c d : Nat) :
    let s0 : RenderParam := ⟨16, 4, 0, c, d⟩
    let s1 := s0.update
    let s2 := s1.update
    let s3 := s2.update
    let s4 := s3.update
    let s5 := s4.update
    let s6 := s5.update
    s1.total_samples = 4 ∧ s1.clear_samples = 1 ∧
      s2.total_samples = 8 ∧ s2.clear_samples = 0 ∧
      s3.total_samples = 12 ∧ s3.clear_samples = 0 ∧
      s4.total_samples = 16 ∧ s4.clear_samples = 0 ∧
      s5.total_samples = 20 ∧ s5.clear_samples = 0 ∧
      s6.total_samples = 20 ∧ s6.samples_per_pixel = 0 ∧
      s6.clear_samples = 0 := by
  simp [RenderParam.update]

theorem update_of_spp_zero (s : RenderParam)
    (h0 : s.samples_per_pixel = 0) (h32 : s.total_samples < 2 ^ 32) :
    s.update.total_samples = s.total_samples ∧
      s.update.samples_per_pixel = 0 := by
  unfold RenderParam.update
  split
  · refine ⟨?_, by simp [h0]⟩
    simp [h0]
    omega
  · split
    · refine ⟨?_, by simp [h0]⟩
      simp [h0]
      omega
    · simp [h0]

/-- C7: once `samples_per_pixel` is 0, no number of further updates changes
`total_samples` or `samples_per_pixel`; in particular a state with
`total_samples = 0` and `samples_per_pixel = 0` keeps `total_samples` at 0
forever.  (`total_samples` is a `u32`, hence below `2 ^ 32`.) -/
theorem C7_converged_is_sticky (s : RenderParam) (n : Nat)
    (h0 : s.samples_per_pixel = 0) (h32 : s.total_samples < 2 ^ 32) :
    (RenderParam.update^[n] s).total_samples = s.total_samples ∧
      (RenderParam.update^[n] s).samples_per_pixel = 0 := by
  induction n generalizing s with
  | zero => exact ⟨rfl, h0⟩
  | succ n ih =>
    have hstep := update_of_spp_zero s h0 h32
    rw [Function.iterate_succ_apply]
    have := ih s.update hstep.2 (hstep.1 ▸ h32)
    rw [this.1, this.2, hstep.1]
    exact ⟨rfl, rfl⟩

theorem C7_converged_is_sticky_witness :
    let s : RenderParam := ⟨16, 0, 0, 0, 8⟩
    s.samples_per_pixel = 0 ∧ s.total_samples < 2 ^ 32 ∧
      ((RenderParam.update^[3] s).total_samples = s.total_samples ∧
        (RenderParam.update^[3] s).samples_per_pixel = 0) :=
  ⟨by decide, by decide, C7_converged_is_sticky ⟨16, 0, 0, 0, 8⟩ 3 (by decide) (by decide)⟩

/-- C10: an update never modifies `samples_max_per_pixel` or `max_depth`;
in all three branches only `total_samples`, `samples_per_pixel` and
`clear_samples` can change. -/
theorem C10_update_frame (s : RenderParam) :
    s.update.samples_max_per_pixel = s.samples_max_per_pixel ∧
      s.update.max_depth = s.max_depth := by
  unfold RenderParam.update
  split
  · exact ⟨rfl, rfl⟩
  · split <;> exact ⟨rfl, rfl⟩

end Sviet
